import Mathlib

/-!
Shallow embedding of the `SmartWeightDistributor` core from `xl.py`:
`find_weight_column`, `shift_columns_and_create_containers`,
`distribute_weight`, and the weight-distribution loop of
`process_dataframe`, together with theorems settling the specification
claims about them.

Modelling choices:
* A pandas DataFrame is a `Table`: an ordered list of labelled columns,
  each an ordered list of cells.  A cell is either a value that
  `pd.to_numeric` parses as a number (`Cell.num`, with the value as a
  rational), a non-numeric text value (`Cell.text`), or missing/NaN
  (`Cell.empty`).
* Column labels are an inductive type: `Label.orig s` stands for an
  original (uploaded) column label, while `Label.container i` and
  `Label.column k` stand for the strings `f'Container_{i}'` and
  `f'Column_{k}'` that the shift branch manufactures.  The three string
  families are pairwise distinct in the source, which the constructors
  reflect.
* Python `round(x, 2)` is modelled exactly on rationals as
  round-half-to-even at two decimal places (`round2`).
* Python ints are modelled as `ℤ` (so `user_defined_containers < 1`
  covers zero and negative inputs).
-/

inductive Cell where
  | num (q : ℚ)
  | text (s : String)
  | empty
deriving Repr, DecidableEq

/-- Model of `pd.to_numeric(·, errors='coerce')` on one cell: numeric cells keep
their value, text and missing cells coerce to NaN (`none`). -/
def Cell.toNumeric : Cell → Option ℚ
  | num q => some q
  | _ => none

/-- Whether a cell is a text value (on which the source's
`weight > 0` comparison would raise a `TypeError`). -/
def Cell.isText : Cell → Bool
  | text _ => true
  | _ => false

/-- Model of `pd.notna(weight) and weight > 0`, the row guard of
`process_dataframe` (defined for non-text cells; a text cell makes the
source raise a `TypeError`, so theorems about the loop assume the weight
column holds no text). -/
def Cell.isPosWeight : Cell → Bool
  | num q => decide (0 < q)
  | _ => false

inductive Label where
  | orig (s : String)
  | container (i : ℕ)
  | column (k : ℤ)
deriving Repr, DecidableEq

/-- A pandas DataFrame: ordered, labelled columns of cells. -/
structure Table where
  cols : List (Label × List Cell)
deriving Repr, DecidableEq

/-- Model of `list(df.columns)`. -/
def Table.labels (df : Table) : List Label :=
  df.cols.map Prod.fst

/-- Model of `len(df)`: the number of rows (length of the first column; a
DataFrame is rectangular). -/
def Table.nrows (df : Table) : ℕ :=
  match df.cols with
  | [] => 0
  | c :: _ => c.2.length

/-- Model of `df[lab]`: the cells of the first column labelled `lab`. -/
def Table.getCol (df : Table) (lab : Label) : List Cell :=
  ((df.cols.find? (fun c => c.1 = lab)).map Prod.snd).getD []

/-- Model of `pd.to_numeric(df[col], errors='coerce').notna().sum()`: how many
cells of a column parse as numbers. -/
def numericCount (col : List Cell) : ℕ :=
  (col.filter (fun c => c.toNumeric.isSome)).length

/-- One iteration of the detection loop of `find_weight_column`
(xl.py lines 15-19): keep the running best on `numeric_count > max_numbers`. -/
def detectStep (acc : Option Label × ℕ) (p : Label × List Cell) :
    Option Label × ℕ :=
  if numericCount p.2 > acc.2 then (some p.1, numericCount p.2) else acc

/-- Embedding of `find_weight_column` (xl.py lines 10-20): scan the columns left to
right, starting from `weight_column = None`, `max_numbers = 0`. -/
def find_weight_column (df : Table) : Option Label × ℕ :=
  df.cols.foldl detectStep (none, 0)

/-- The container labels `Container_1 .. Container_n`
(xl.py lines 35-36 and 48). -/
def containerLabels (n : ℕ) : List Label :=
  (List.range n).map (fun j => Label.container (j + 1))

/-- The freshly created container columns, each filled with `0.0` for
every row (xl.py lines 35-36). -/
def containerCols (n rows : ℕ) : List (Label × List Cell) :=
  (containerLabels n).map (fun lab => (lab, List.replicate rows (Cell.num 0)))

/-- Embedding of the relabelling loop
`for i, col in enumerate(df.columns): new_columns[f'Column_{i+shift}'] = df[col].values`
(xl.py lines 39-41), with `k` the running position `i`. -/
def relabelCols (shift : ℤ) : ℕ → List (Label × List Cell) → List (Label × List Cell)
  | _, [] => []
  | k, c :: cs => (Label.column (k + shift), c.2) :: relabelCols shift (k + 1) cs

/-- Embedding of `shift_columns_and_create_containers` (xl.py lines 22-54).
`user_defined_containers` is a Python int, modelled as `ℤ`.
`list(df.columns).index(weight_column)` is `List.indexOf`. -/
def shift_columns_and_create_containers (df : Table) (weight_column : Label)
    (user_defined_containers : ℤ) : Table × Label × List Label :=
  let weight_col_index : ℕ := df.labels.indexOf weight_column
  if (weight_col_index : ℤ) < user_defined_containers then
    let shift_amount := user_defined_containers - weight_col_index
    let new_df : Table :=
      ⟨containerCols user_defined_containers.toNat df.nrows ++
        relabelCols shift_amount 0 df.cols⟩
    let weight_column_new := Label.column (weight_col_index + shift_amount)
    (new_df, weight_column_new, containerLabels user_defined_containers.toNat)
  else
    (df, weight_column, df.labels.take weight_col_index)

/-- Round-half-to-even to the nearest integer: the convention of
Python's built-in `round`. -/
def roundHalfEven (q : ℚ) : ℤ :=
  if q - ⌊q⌋ < 1 / 2 then ⌊q⌋
  else if 1 / 2 < q - ⌊q⌋ then ⌊q⌋ + 1
  else if ⌊q⌋ % 2 = 0 then ⌊q⌋ else ⌊q⌋ + 1

/-- Python `round(x, 2)`. -/
def round2 (q : ℚ) : ℚ :=
  (roundHalfEven (q * 100) : ℚ) / 100

/-- Embedding of `distribute_weight` (xl.py lines 56-61).  The weight argument is the
numeric view of the cell (`none` = NaN). -/
def distribute_weight (weight : Option ℚ) (num_containers : ℕ) : List ℚ :=
  match weight with
  | none => List.replicate num_containers 0
  | some w =>
    if w ≤ 0 then List.replicate num_containers 0
    else List.replicate num_containers (round2 (w / num_containers))

/-- Row-wise effect of the distribution loop on one container column:
row `i` receives `distribute_weight(weight_i, ncont)` when the guard
`pd.notna(weight_i) and weight_i > 0` holds, and is untouched otherwise
(xl.py lines 83-88, with `wcol` the weight column read by
`enumerate(processed_df[final_weight_column])`). -/
def distributeCol (ncont : ℕ) : List Cell → List Cell → List Cell
  | Cell.num q :: ws, c :: cs =>
    (if 0 < q then Cell.num (round2 (q / ncont)) else c) :: distributeCol ncont ws cs
  | _ :: ws, c :: cs => c :: distributeCol ncont ws cs
  | [], cs => cs
  | _, [] => []

/-- The weight-distribution loop of `process_dataframe`
(xl.py lines 82-88), reorganised column-wise: every `.at[i, container_col]`
write targets a distinct (row, container-column) position and its value
depends only on the weight column, so the table after the loop has each
container column rewritten by `distributeCol` and every other column
unchanged; `processed_rows` counts the rows passing the guard. -/
def distributeLoop (df : Table) (final_weight_column : Label)
    (container_columns : List Label) : Table × ℕ :=
  let wcol := df.getCol final_weight_column
  (⟨df.cols.map (fun c =>
      if c.1 ∈ container_columns then
        (c.1, distributeCol container_columns.length wcol c.2)
      else c)⟩,
    wcol.foldl (fun acc c => if c.isPosWeight then acc + 1 else acc) 0)

/-- Embedding of `process_dataframe` (xl.py lines 63-92), with the Streamlit status
messages dropped: `None` becomes `none`, and the returned triple is the
processed table, final weight column and container columns. -/
def process_dataframe (df : Table) (user_defined_containers : ℤ) :
    Option (Table × Label × List Label) :=
  match find_weight_column df with
  | (none, _) => none
  | (some weight_column, _) =>
    let r := shift_columns_and_create_containers df weight_column
      user_defined_containers
    some ((distributeLoop r.1 r.2.1 r.2.2).1, r.2.1, r.2.2)

/-- The spec's no-shift scenario: columns `[c1..c6, weight]`, one row,
weight 9. -/
def tblScenarioNoShift : Table :=
  ⟨[(Label.orig "c1", [Cell.text "a"]), (Label.orig "c2", [Cell.text "b"]),
    (Label.orig "c3", [Cell.text "c"]), (Label.orig "c4", [Cell.text "d"]),
    (Label.orig "c5", [Cell.text "e"]), (Label.orig "c6", [Cell.text "f"]),
    (Label.orig "weight", [Cell.num 9])]⟩

/-- The spec's shift scenario: columns `[A, B, weight]`,
rows `("x","y",10)` and `("p","q",0)`. -/
def tblScenarioShift : Table :=
  ⟨[(Label.orig "A", [Cell.text "x", Cell.text "p"]),
    (Label.orig "B", [Cell.text "y", Cell.text "q"]),
    (Label.orig "weight", [Cell.num 10, Cell.num 0])]⟩

/-- Two columns, one row: the container column `A` holds 7 and the
weight cell is 0 (a skipped row). -/
def tblSkipRow : Table :=
  ⟨[(Label.orig "A", [Cell.num 7]), (Label.orig "W", [Cell.num 0])]⟩

/-- Two columns, one row, numeric weight 4 in the second column. -/
def tblTiny : Table :=
  ⟨[(Label.orig "a", [Cell.text "x"]), (Label.orig "w", [Cell.num 4])]⟩

/-- A table with no numeric cell anywhere. -/
def tblAllText : Table :=
  ⟨[(Label.orig "a", [Cell.text "x", Cell.empty]),
    (Label.orig "b", [Cell.empty, Cell.text "y"])]⟩

/-- A table whose second column has the most numeric values. -/
def tblDetect : Table :=
  ⟨[(Label.orig "a", [Cell.text "x", Cell.num 1]),
    (Label.orig "w", [Cell.num 3, Cell.num 4])]⟩

/-- When `q` is exactly `m/100`, `round(q, 2)` returns it unchanged. -/
theorem round2_of_mul_eq (q : ℚ) (m : ℤ) (h : q * 100 = m) :
    round2 q = m / 100 := by
  have hf : roundHalfEven (q * 100) = m := by
    simp [roundHalfEven, h, Int.floor_intCast]
  simp [round2, hf]

example : round2 (9 / 5) = 9 / 5 := by
  rw [round2_of_mul_eq (9 / 5) 180 (by norm_num)]; norm_num
example : round2 (9 / 6) = 3 / 2 := by
  rw [round2_of_mul_eq (9 / 6) 150 (by norm_num)]; norm_num

/-- Rounding to the nearest integer moves a rational by at most 1/2. -/
theorem abs_roundHalfEven_sub_le (q : ℚ) : |(roundHalfEven q : ℚ) - q| ≤ 1 / 2 := by
  have hfl : (⌊q⌋ : ℚ) ≤ q := Int.floor_le q
  have hfu : q < (⌊q⌋ : ℚ) + 1 := Int.lt_floor_add_one q
  unfold roundHalfEven
  split_ifs with h1 h2 h3
  · rw [abs_le]; constructor <;> linarith
  · rw [abs_le]; push_cast; constructor <;> linarith
  · rw [abs_le]; constructor <;> linarith [le_of_not_lt h1, le_of_not_lt h2]
  · rw [abs_le]; push_cast; constructor <;> linarith [le_of_not_lt h1, le_of_not_lt h2]

/-- Rounding at two decimal places moves a rational by at most 0.005. -/
theorem abs_round2_sub_le (q : ℚ) : |round2 q - q| ≤ 1 / 200 := by
  have h := abs_roundHalfEven_sub_le (q * 100)
  have : round2 q - q = ((roundHalfEven (q * 100) : ℚ) - q * 100) / 100 := by
    unfold round2; ring
  rw [this, abs_div]
  rw [show |(100 : ℚ)| = 100 by norm_num]
  linarith

/-- C5: for a row with numeric weight `w > 0` and `n ≥ 1` containers,
`distribute_weight` assigns the identical share `round(w/n, 2)` to every
container, so the row's container sum is `round(w/n,2) * n`, which differs
from `w` by at most `n * 0.005`. -/
theorem c5_distribute_weight_conservation (w : ℚ) (n : ℕ)
    (hw : 0 < w) (hn : 1 ≤ n) :
    distribute_weight (some w) n = List.replicate n (round2 (w / n)) ∧
    (distribute_weight (some w) n).sum = n * round2 (w / n) ∧
    |(n : ℚ) * round2 (w / n) - w| ≤ n * (1 / 200) := by
  have hne : (n : ℚ) ≠ 0 := by
    have : (0 : ℚ) < n := by exact_mod_cast hn
    exact ne_of_gt this
  refine ⟨?_, ?_, ?_⟩
  · simp [distribute_weight, not_le.mpr hw]
  · simp only [distribute_weight, not_le.mpr hw, if_false, List.sum_replicate,
      nsmul_eq_mul]
  · have h := abs_round2_sub_le (w / n)
    have key : (n : ℚ) * round2 (w / n) - w = n * (round2 (w / n) - w / n) := by
      rw [mul_sub]
      congr 1
      field_simp
    rw [key, abs_mul, abs_of_nonneg (by positivity : (0 : ℚ) ≤ (n : ℚ))]
    exact mul_le_mul_of_nonneg_left h (by positivity)

/-- Witness for C5 at `w = 9`, `n = 5`. -/
theorem c5_witness :
    (0 < (9 : ℚ)) ∧ (1 ≤ 5) ∧
    (distribute_weight (some 9) 5 = List.replicate 5 (round2 (9 / (5 : ℕ))) ∧
     (distribute_weight (some 9) 5).sum = (5 : ℕ) * round2 (9 / (5 : ℕ)) ∧
     |((5 : ℕ) : ℚ) * round2 (9 / (5 : ℕ)) - 9| ≤ (5 : ℕ) * (1 / 200)) :=
  ⟨by norm_num, by norm_num,
    c5_distribute_weight_conservation 9 5 (by norm_num) (by norm_num)⟩

theorem getElem?_some_lt {α : Type} {l : List α} {j : ℕ} {a : α}
    (h : l[j]? = some a) : j < l.length :=
  (List.getElem?_eq_some.mp h).1

theorem getElem?_some_mem {α : Type} {l : List α} {j : ℕ} {a : α}
    (h : l[j]? = some a) : a ∈ l := by
  rcases List.getElem?_eq_some.mp h with ⟨h1, h2⟩
  exact h2 ▸ l.getElem_mem h1

theorem concat_getElem?_cases {α : Type} {xs : List α} {x : α} {j : ℕ} {q : α}
    (h : (xs ++ [x])[j]? = some q) :
    (j < xs.length ∧ xs[j]? = some q) ∨ (j = xs.length ∧ q = x) := by
  rcases Nat.lt_or_ge j xs.length with hj | hj
  · left
    refine ⟨hj, ?_⟩
    rwa [List.getElem?_append_left hj] at h
  · right
    have hlen : j < xs.length + 1 := by
      have := getElem?_some_lt h
      simpa using this
    have hj' : j = xs.length := by omega
    subst hj'
    rw [List.getElem?_concat_length] at h
    exact ⟨rfl, by injection h with h; exact h.symm⟩

/-- Characterisation of the detection loop's fold: either every column has
numeric count 0 and the accumulator never moves from `(None, 0)`, or the
result is the leftmost column whose count strictly exceeds every earlier
count and is at least every later count. -/
theorem detect_fold_spec (l : List (Label × List Cell)) :
    (List.foldl detectStep (none, 0) l = (none, 0) ∧
      ∀ p ∈ l, numericCount p.2 = 0) ∨
    (∃ w c, List.foldl detectStep (none, 0) l = (some w, c) ∧ 0 < c ∧
      ∃ (k : ℕ) (p : Label × List Cell), l[k]? = some p ∧ p.1 = w ∧ numericCount p.2 = c ∧
        (∀ (j : ℕ) (q : Label × List Cell), j < k → l[j]? = some q → numericCount q.2 < c) ∧
        (∀ (j : ℕ) (q : Label × List Cell), l[j]? = some q → numericCount q.2 ≤ c)) := by
  induction l using List.reverseRecOn with
  | nil => exact Or.inl ⟨rfl, by simp⟩
  | append_singleton xs x ih =>
    rw [List.foldl_append, List.foldl_cons, List.foldl_nil]
    rcases ih with ⟨hres, hall⟩ | ⟨w, c, hres, hc, k, p, hk, hwp, hcnt, hlt, hle⟩
    · rw [hres]
      by_cases hx : 0 < numericCount x.2
      · right
        refine ⟨x.1, numericCount x.2, ?_, hx, xs.length, x,
          List.getElem?_concat_length xs x, rfl, rfl, ?_, ?_⟩
        · simp only [detectStep]
          rw [if_pos hx]
        · intro j q hj hq
          rw [List.getElem?_append_left hj] at hq
          rw [hall q (getElem?_some_mem hq)]
          exact hx
        · intro j q hq
          rcases concat_getElem?_cases hq with ⟨_, hq'⟩ | ⟨_, hq'⟩
          · rw [hall q (getElem?_some_mem hq')]
            exact Nat.zero_le _
          · rw [hq']
      · left
        have hx0 : numericCount x.2 = 0 := Nat.eq_zero_of_not_pos hx
        refine ⟨?_, ?_⟩
        · simp only [detectStep]
          rw [if_neg hx]
        · intro p hp
          rcases List.mem_append.mp hp with h | h
          · exact hall p h
          · rw [List.mem_singleton.mp h]
            exact hx0
    · rw [hres]
      have hklen : k < xs.length := getElem?_some_lt hk
      by_cases hx : numericCount x.2 > c
      · right
        refine ⟨x.1, numericCount x.2, ?_, lt_trans hc hx, xs.length, x,
          List.getElem?_concat_length xs x, rfl, rfl, ?_, ?_⟩
        · simp only [detectStep]
          rw [if_pos hx]
        · intro j q hj hq
          rw [List.getElem?_append_left hj] at hq
          exact lt_of_le_of_lt (hle j q hq) hx
        · intro j q hq
          rcases concat_getElem?_cases hq with ⟨_, hq'⟩ | ⟨_, hq'⟩
          · exact le_of_lt (lt_of_le_of_lt (hle j q hq') hx)
          · rw [hq']
      · right
        refine ⟨w, c, ?_, hc, k, p, ?_, hwp, hcnt, ?_, ?_⟩
        · simp only [detectStep]
          rw [if_neg hx]
        · rw [List.getElem?_append_left hklen]
          exact hk
        · intro j q hj hq
          rw [List.getElem?_append_left (lt_trans hj hklen)] at hq
          exact hlt j q hj hq
        · intro j q hq
          rcases concat_getElem?_cases hq with ⟨_, hq'⟩ | ⟨_, hq'⟩
          · exact hle j q hq'
          · rw [hq']
            exact le_of_not_lt hx

/-- C3: `find_weight_column` returns `none` exactly when no column has a
single numeric value; otherwise it returns the leftmost column whose
numeric count strictly exceeds every earlier column's count and is at
least every later column's count (strict `>` updates, so first column to
reach the maximum wins ties), together with that count. -/
theorem c3_find_weight_column_spec (df : Table) :
    ((find_weight_column df).1 = none ↔ ∀ p ∈ df.cols, numericCount p.2 = 0) ∧
    (∀ w, (find_weight_column df).1 = some w →
      0 < (find_weight_column df).2 ∧
      ∃ (k : ℕ) (p : Label × List Cell), df.cols[k]? = some p ∧ p.1 = w ∧
        numericCount p.2 = (find_weight_column df).2 ∧
        (∀ (j : ℕ) (q : Label × List Cell), j < k → df.cols[j]? = some q →
          numericCount q.2 < (find_weight_column df).2) ∧
        (∀ (j : ℕ) (q : Label × List Cell), df.cols[j]? = some q →
          numericCount q.2 ≤ (find_weight_column df).2)) := by
  rcases detect_fold_spec df.cols with ⟨hres, hall⟩ | ⟨w, c, hres, hc, k, p, hk, hwp, hcnt, hlt, hle⟩
  · constructor
    · unfold find_weight_column
      rw [hres]
      exact ⟨fun _ => hall, fun _ => rfl⟩
    · intro w hw
      unfold find_weight_column at hw
      rw [hres] at hw
      cases hw
  · constructor
    · unfold find_weight_column
      rw [hres]
      constructor
      · intro h
        cases h
      · intro h
        have := h p (getElem?_some_mem hk)
        rw [hcnt] at this
        omega
    · intro w' hw'
      unfold find_weight_column at hw' ⊢
      rw [hres] at hw' ⊢
      have hww : w = w' := by injection hw'
      subst hww
      exact ⟨hc, k, p, hk, hwp, hcnt, hlt, hle⟩

/-- Witness for C3 on `tblDetect`: the second column is detected with
count 2, strictly above the first column's count 1. -/
theorem c3_witness :
    0 < (find_weight_column tblDetect).2 ∧
    ∃ (k : ℕ) (p : Label × List Cell), tblDetect.cols[k]? = some p ∧
      p.1 = Label.orig "w" ∧
      numericCount p.2 = (find_weight_column tblDetect).2 ∧
      (∀ (j : ℕ) (q : Label × List Cell), j < k → tblDetect.cols[j]? = some q →
        numericCount q.2 < (find_weight_column tblDetect).2) ∧
      (∀ (j : ℕ) (q : Label × List Cell), tblDetect.cols[j]? = some q →
        numericCount q.2 ≤ (find_weight_column tblDetect).2) :=
  (c3_find_weight_column_spec tblDetect).2 (Label.orig "w") rfl

/-- If position `j` holds `a` and no earlier position does, then the
first occurrence of `a` is at `j`. -/
theorem indexOf_eq_of_getElem? {α : Type} [DecidableEq α] {l : List α} {a : α}
    {j : ℕ} (h1 : ∀ m, m < j → l[m]? ≠ some a) (h2 : l[j]? = some a) :
    l.indexOf a = j := by
  induction l generalizing j with
  | nil => simp at h2
  | cons b bs ih =>
    cases j with
    | zero =>
      have hb : b = a := by simpa using h2
      subst hb
      exact List.indexOf_cons_self b bs
    | succ j =>
      have hb : b ≠ a := by
        intro hba
        exact h1 0 (Nat.succ_pos j) (by simp [hba])
      rw [List.indexOf_cons_ne bs hb]
      have hrec : bs.indexOf a = j := by
        refine ih (fun m hm => ?_) (by simpa using h2)
        have := h1 (m + 1) (by omega)
        simpa using this
      omega

theorem containerLabels_length (n : ℕ) : (containerLabels n).length = n := by
  simp [containerLabels]

theorem containerLabels_getElem? {n j : ℕ} (h : j < n) :
    (containerLabels n)[j]? = some (Label.container (j + 1)) := by
  simp [containerLabels, List.getElem?_range h]

theorem containerCols_map_fst (n rows : ℕ) :
    (containerCols n rows).map Prod.fst = containerLabels n := by
  rw [containerCols, List.map_map]
  exact List.map_id _

theorem containerCols_length (n rows : ℕ) :
    (containerCols n rows).length = n := by
  simp [containerCols, containerLabels]

theorem relabelCols_length (s : ℤ) (k : ℕ) (l : List (Label × List Cell)) :
    (relabelCols s k l).length = l.length := by
  induction l generalizing k with
  | nil => rfl
  | cons c cs ih => simp [relabelCols, ih]

theorem relabelCols_getElem?_some (s : ℤ) (k j : ℕ) (l : List (Label × List Cell))
    (p : Label × List Cell) (h : l[j]? = some p) :
    (relabelCols s k l)[j]? = some (Label.column ((k : ℤ) + j + s), p.2) := by
  induction l generalizing k j with
  | nil => simp at h
  | cons c cs ih =>
    cases j with
    | zero =>
      have hc : c = p := by simpa using h
      subst hc
      simp [relabelCols]
    | succ j =>
      have := ih (k + 1) j (by simpa using h)
      rw [show (relabelCols s k (c :: cs))[j + 1]?
            = (relabelCols s (k + 1) cs)[j]? by simp [relabelCols], this]
      have harg : ((k + 1 : ℕ) : ℤ) + j + s = (k : ℤ) + (j + 1 : ℕ) + s := by
        push_cast
        ring
      rw [harg]

/-- C2 (as amended): in the shift case (`weightIndex < containerCount`,
with the weight column present), the reshaped table has exactly
`containerCount` more columns than the original, the new weight-column
identifier is the relabelled position `weightIndex + shiftAmount`, i.e.
the label `Column_{containerCount}`; that column sits at position
`containerCount + weightIndex` of the new table (not `containerCount`),
and original column `j` is preserved, with its values, at position
`containerCount + j` under the label `Column_{j + shiftAmount}`. -/
theorem c2_shift_spec (df : Table) (w : Label) (n : ℤ)
    (hw : w ∈ df.labels)
    (hi : ((df.labels.indexOf w : ℕ) : ℤ) < n) :
    (shift_columns_and_create_containers df w n).1.cols.length
      = df.cols.length + n.toNat ∧
    (shift_columns_and_create_containers df w n).2.1 = Label.column n ∧
    (shift_columns_and_create_containers df w n).1.labels.indexOf
      (Label.column n) = n.toNat + df.labels.indexOf w ∧
    (∀ (j : ℕ) (p : Label × List Cell), df.cols[j]? = some p →
      (shift_columns_and_create_containers df w n).1.cols[n.toNat + j]?
        = some (Label.column ((j : ℤ) + (n - (df.labels.indexOf w : ℕ))), p.2)) := by
  have hif : shift_columns_and_create_containers df w n =
      (⟨containerCols n.toNat df.nrows ++
          relabelCols (n - (df.labels.indexOf w : ℕ)) 0 df.cols⟩,
        Label.column (((df.labels.indexOf w : ℕ) : ℤ) +
          (n - (df.labels.indexOf w : ℕ))),
        containerLabels n.toNat) := by
    simp only [shift_columns_and_create_containers]
    rw [if_pos hi]
  have hilen : df.labels.indexOf w < df.labels.length :=
    List.indexOf_lt_length.mpr hw
  have hlablen : df.labels.length = df.cols.length := by
    simp [Table.labels]
  refine ⟨?_, ?_, ?_, ?_⟩
  · rw [hif]
    simp only [List.length_append, containerCols_length, relabelCols_length]
    omega
  · rw [hif]
    have harg : ((df.labels.indexOf w : ℕ) : ℤ) +
        (n - (df.labels.indexOf w : ℕ)) = n := by ring
    rw [harg]
  · rw [hif]
    have hmap : (Table.labels ⟨containerCols n.toNat df.nrows ++
        relabelCols (n - (df.labels.indexOf w : ℕ)) 0 df.cols⟩)
        = containerLabels n.toNat ++
          (relabelCols (n - (df.labels.indexOf w : ℕ)) 0 df.cols).map Prod.fst := by
      simp [Table.labels, List.map_append, containerCols_map_fst]
    rw [hmap]
    have hicols : df.labels.indexOf w < df.cols.length := by omega
    refine indexOf_eq_of_getElem? (fun m hm => ?_) ?_
    · rcases Nat.lt_or_ge m n.toNat with hmn | hmn
      · rw [List.getElem?_append_left (by rwa [containerLabels_length]),
          containerLabels_getElem? hmn]
        simp
      · rw [List.getElem?_append_right (by rwa [containerLabels_length]),
          containerLabels_length]
        have htlt : m - n.toNat < df.labels.indexOf w := by omega
        have htcols : m - n.toNat < df.cols.length := by omega
        have hp : df.cols[m - n.toNat]? = some df.cols[m - n.toNat] :=
          List.getElem?_eq_getElem htcols
        rw [List.getElem?_map,
          relabelCols_getElem?_some _ 0 _ df.cols _ hp]
        simp only [Option.map_some']
        intro hcol
        have : ((0 : ℕ) : ℤ) + (m - n.toNat : ℕ) +
            (n - (df.labels.indexOf w : ℕ)) = n := by
          injection hcol with h
          simpa using h
        have : ((m - n.toNat : ℕ) : ℤ) = (df.labels.indexOf w : ℕ) := by
          push_cast at this
          linarith
        omega
    · rw [List.getElem?_append_right
        (by rw [containerLabels_length]; omega), containerLabels_length]
      have hidx : n.toNat + df.labels.indexOf w - n.toNat
          = df.labels.indexOf w := by omega
      rw [hidx]
      have hwcols : df.labels.indexOf w < df.cols.length := by omega
      have hp : df.cols[df.labels.indexOf w]? =
          some df.cols[df.labels.indexOf w] :=
        List.getElem?_eq_getElem hwcols
      rw [List.getElem?_map,
        relabelCols_getElem?_some _ 0 _ df.cols _ hp]
      simp only [Option.map_some']
      congr 2
      push_cast
      ring
  · intro j p hp
    rw [hif]
    show (containerCols n.toNat df.nrows ++
        relabelCols (n - (df.labels.indexOf w : ℕ)) 0 df.cols)[n.toNat + j]?
      = _
    rw [List.getElem?_append_right (by rw [containerCols_length]; omega),
      containerCols_length]
    have hidx : n.toNat + j - n.toNat = j := by omega
    rw [hidx, relabelCols_getElem?_some _ 0 _ df.cols _ hp]
    congr 3
    push_cast
    ring

/-- C2 counterexample: in the spec's own shift scenario
(columns `[A,B,weight]`, `containerCount = 5`), the new weight column's
position in the reshaped table is 7, not `containerCount = 5` (the label
is `Column_5`, but all three original columns sit after the five
containers). -/
theorem c2_counterexample :
    (shift_columns_and_create_containers tblScenarioShift
        (Label.orig "weight") 5).1.labels.indexOf
      (shift_columns_and_create_containers tblScenarioShift
        (Label.orig "weight") 5).2.1 = 7 ∧
    (7 : ℕ) ≠ 5 := by
  refine ⟨rfl, by decide⟩

/-- Witness for C2 (amended) on the spec's shift scenario. -/
theorem c2_witness :
    (Label.orig "weight" ∈ tblScenarioShift.labels) ∧
    (((tblScenarioShift.labels.indexOf (Label.orig "weight") : ℕ) : ℤ) < 5) ∧
    ((shift_columns_and_create_containers tblScenarioShift
        (Label.orig "weight") 5).1.cols.length
      = tblScenarioShift.cols.length + (5 : ℤ).toNat ∧
    (shift_columns_and_create_containers tblScenarioShift
        (Label.orig "weight") 5).2.1 = Label.column 5 ∧
    (shift_columns_and_create_containers tblScenarioShift
        (Label.orig "weight") 5).1.labels.indexOf (Label.column 5)
      = (5 : ℤ).toNat + tblScenarioShift.labels.indexOf (Label.orig "weight") ∧
    (∀ (j : ℕ) (p : Label × List Cell), tblScenarioShift.cols[j]? = some p →
      (shift_columns_and_create_containers tblScenarioShift
          (Label.orig "weight") 5).1.cols[(5 : ℤ).toNat + j]?
        = some (Label.column ((j : ℤ) +
            (5 - (tblScenarioShift.labels.indexOf (Label.orig "weight") : ℕ))),
            p.2))) :=
  ⟨by decide, by decide,
    c2_shift_spec tblScenarioShift (Label.orig "weight") 5 (by decide) (by decide)⟩

/-- C1 (as amended): in the no-shift case (`weightIndex ≥ containerCount ≥ 1`)
the container columns are the first `weightIndex` columns of the table —
all columns strictly before the weight column, not just the first
`containerCount` — and table and weight identifier are returned unchanged. -/
theorem c1_no_shift_spec (df : Table) (w : Label) (n : ℤ)
    (_hn : 1 ≤ n) (hi : n ≤ ((df.labels.indexOf w : ℕ) : ℤ)) :
    shift_columns_and_create_containers df w n
      = (df, w, df.labels.take (df.labels.indexOf w)) := by
  simp only [shift_columns_and_create_containers]
  rw [if_neg (not_lt.mpr hi)]

/-- Witness for C1 (amended) on the spec's no-shift scenario
(`weightIndex = 6 ≥ 5`): containers are the first six columns. -/
theorem c1_witness :
    ((1 : ℤ) ≤ 5) ∧
    ((5 : ℤ) ≤ ((tblScenarioNoShift.labels.indexOf (Label.orig "weight") : ℕ) : ℤ)) ∧
    shift_columns_and_create_containers tblScenarioNoShift (Label.orig "weight") 5
      = (tblScenarioNoShift, Label.orig "weight",
          tblScenarioNoShift.labels.take
            (tblScenarioNoShift.labels.indexOf (Label.orig "weight"))) :=
  ⟨by decide, by decide,
    c1_no_shift_spec tblScenarioNoShift (Label.orig "weight") 5 (by decide) (by decide)⟩

/-- C1 counterexample: in the spec's no-shift scenario
(columns `[c1..c6, weight]`, one row of weight 9, `containerCount = 5`)
the code returns the first `weightIndex = 6` columns as containers — not
the first 5 — and each container cell becomes `round(9/6, 2) = 1.5`, not
`round(9/5, 2) = 1.8`. -/
theorem c1_counterexample :
    (shift_columns_and_create_containers tblScenarioNoShift
        (Label.orig "weight") 5).2.2
      = [Label.orig "c1", Label.orig "c2", Label.orig "c3",
         Label.orig "c4", Label.orig "c5", Label.orig "c6"] ∧
    (shift_columns_and_create_containers tblScenarioNoShift
        (Label.orig "weight") 5).2.2
      ≠ [Label.orig "c1", Label.orig "c2", Label.orig "c3",
         Label.orig "c4", Label.orig "c5"] ∧
    Option.map (fun t => Table.getCol t.1 (Label.orig "c1"))
        (process_dataframe tblScenarioNoShift 5)
      = some [Cell.num (round2 (9 / (6 : ℕ)))] ∧
    round2 (9 / (6 : ℕ)) = 3 / 2 ∧
    (3 / 2 : ℚ) ≠ 9 / 5 := by
  refine ⟨rfl, by decide, rfl, ?_, by norm_num⟩
  rw [show ((6 : ℕ) : ℚ) = 6 by norm_num,
    round2_of_mul_eq (9 / 6) 150 (by norm_num)]
  norm_num

/-- C6 (as amended): the core performs no `containerCount` validation.
For `containerCount < 1` the shift condition `weightIndex < containerCount`
is false, so the code silently takes the no-shift branch and returns the
input table with the first `weightIndex` columns as containers — no
configuration error is ever raised. -/
theorem c6_no_validation (df : Table) (w : Label) (n : ℤ) (hn : n < 1) :
    shift_columns_and_create_containers df w n
      = (df, w, df.labels.take (df.labels.indexOf w)) := by
  have hle : n ≤ ((df.labels.indexOf w : ℕ) : ℤ) := by
    have := Int.ofNat_nonneg (df.labels.indexOf w)
    omega
  simp only [shift_columns_and_create_containers]
  rw [if_neg (not_lt.mpr hle)]

/-- C6 counterexample: with `containerCount = 0` the pipeline does not
fail fast; it silently proceeds and returns a fully processed table
(weight 4 distributed over the single pre-weight column). -/
theorem c6_counterexample :
    process_dataframe tblTiny 0 =
      some (⟨[(Label.orig "a", [Cell.num (round2 (4 / (1 : ℕ)))]),
              (Label.orig "w", [Cell.num 4])]⟩,
        Label.orig "w", [Label.orig "a"]) ∧
    round2 (4 / (1 : ℕ)) = 4 := by
  refine ⟨rfl, ?_⟩
  rw [show ((4 : ℚ) / ((1 : ℕ) : ℚ)) = 4 by norm_num,
    round2_of_mul_eq 4 400 (by norm_num)]
  norm_num

/-- Witness for C6 (amended) at `containerCount = 0` on `tblTiny`. -/
theorem c6_witness :
    ((0 : ℤ) < 1) ∧
    shift_columns_and_create_containers tblTiny (Label.orig "w") 0
      = (tblTiny, Label.orig "w",
          tblTiny.labels.take (tblTiny.labels.indexOf (Label.orig "w"))) :=
  ⟨by decide, c6_no_validation tblTiny (Label.orig "w") 0 (by decide)⟩

/-- C9: `reshape` does not mutate its input (the embedding is pure, so
structural non-mutation is inherent); in the no-shift case the returned
table is equal to the input — the source's `df.copy()` — and the
weight-column identifier is returned unchanged, while the shift case
builds its new table from fresh container columns plus the input's
column values. -/
theorem c9_no_mutation (df : Table) (w : Label) (n : ℤ)
    (hi : n ≤ ((df.labels.indexOf w : ℕ) : ℤ)) :
    (shift_columns_and_create_containers df w n).1 = df ∧
    (shift_columns_and_create_containers df w n).2.1 = w := by
  simp only [shift_columns_and_create_containers]
  rw [if_neg (not_lt.mpr hi)]
  exact ⟨rfl, rfl⟩

/-- Witness for C9 on the spec's no-shift scenario. -/
theorem c9_witness :
    ((5 : ℤ) ≤ ((tblScenarioNoShift.labels.indexOf (Label.orig "weight") : ℕ) : ℤ)) ∧
    ((shift_columns_and_create_containers tblScenarioNoShift
        (Label.orig "weight") 5).1 = tblScenarioNoShift ∧
      (shift_columns_and_create_containers tblScenarioNoShift
        (Label.orig "weight") 5).2.1 = Label.orig "weight") :=
  ⟨by decide, c9_no_mutation tblScenarioNoShift (Label.orig "weight") 5 (by decide)⟩

/-- C7: on a table in which no cell parses as a number, the pipeline
returns `None` — no reshaping, no distribution, no partial result. -/
theorem c7_no_weight_column_none (df : Table) (n : ℤ)
    (h : ∀ p ∈ df.cols, ∀ c ∈ p.2, c.toNumeric = none) :
    process_dataframe df n = none := by
  have hz : ∀ p ∈ df.cols, numericCount p.2 = 0 := by
    intro p hp
    rw [numericCount, List.length_eq_zero, List.filter_eq_nil_iff]
    intro c hc
    simp [h p hp c hc]
  rcases detect_fold_spec df.cols with ⟨hres, _⟩ |
    ⟨w, c, hres, hc, k, p, hk, _, hcnt, _, _⟩
  · unfold process_dataframe find_weight_column
    rw [hres]
  · have := hz p (getElem?_some_mem hk)
    omega

/-- Witness for C7 on an all-text table. -/
theorem c7_witness :
    (∀ p ∈ tblAllText.cols, ∀ c ∈ p.2, c.toNumeric = none) ∧
    process_dataframe tblAllText 5 = none :=
  ⟨by decide, c7_no_weight_column_none tblAllText 5 (by decide)⟩

/-- No `Column_*` label is ever one of the `Container_*` labels. -/
theorem column_not_mem_containerLabels (z : ℤ) (n : ℕ) :
    Label.column z ∉ containerLabels n := by
  simp [containerLabels]

/-- The first occurrence of `a` is not among the elements before it. -/
theorem not_mem_take_indexOf {α : Type} [DecidableEq α] (l : List α) (a : α) :
    a ∉ l.take (l.indexOf a) := by
  induction l with
  | nil => simp
  | cons b bs ih =>
    by_cases hb : b = a
    · subst hb
      simp [List.indexOf_cons_self]
    · rw [List.indexOf_cons_ne bs hb, Nat.succ_eq_add_one, List.take_succ_cons]
      intro hmem
      rcases List.mem_cons.mp hmem with h | h
      · exact hb h.symm
      · exact ih h

/-- An element not in the first block of an append occurs no earlier than
the end of that block. -/
theorem le_indexOf_append {α : Type} [DecidableEq α] {l₁ l₂ : List α} {a : α}
    (h : a ∉ l₁) : l₁.length ≤ (l₁ ++ l₂).indexOf a := by
  induction l₁ with
  | nil => simp
  | cons b bs ih =>
    have hb : b ≠ a := fun hba => h (hba ▸ List.mem_cons_self b bs)
    rw [List.cons_append, List.indexOf_cons_ne _ hb]
    have := ih (fun hm => h (List.mem_cons_of_mem b hm))
    simpa [Nat.succ_le_succ_iff] using Nat.succ_le_succ this

/-- C8: for every table, weight column and `containerCount ≥ 1`, the
container list returned by `reshape` never contains the (final) weight
column; the containers are exactly the leading columns of the reshaped
table (in the shift case the `containerCount` freshly created columns
immediately preceding the relocated originals), and the weight column
sits at or after the position where the containers end, i.e. strictly
after every container. -/
theorem c8_containers_disjoint_weight (df : Table) (w : Label) (n : ℤ)
    (_hn : 1 ≤ n) :
    (shift_columns_and_create_containers df w n).2.1
        ∉ (shift_columns_and_create_containers df w n).2.2 ∧
    (shift_columns_and_create_containers df w n).1.labels.take
        (shift_columns_and_create_containers df w n).2.2.length
      = (shift_columns_and_create_containers df w n).2.2 ∧
    (shift_columns_and_create_containers df w n).2.2.length
      ≤ (shift_columns_and_create_containers df w n).1.labels.indexOf
          (shift_columns_and_create_containers df w n).2.1 := by
  by_cases hi : ((df.labels.indexOf w : ℕ) : ℤ) < n
  · have hif : shift_columns_and_create_containers df w n =
        (⟨containerCols n.toNat df.nrows ++
            relabelCols (n - (df.labels.indexOf w : ℕ)) 0 df.cols⟩,
          Label.column (((df.labels.indexOf w : ℕ) : ℤ) +
            (n - (df.labels.indexOf w : ℕ))),
          containerLabels n.toNat) := by
      simp only [shift_columns_and_create_containers]
      rw [if_pos hi]
    rw [hif]
    have hmap : (Table.labels ⟨containerCols n.toNat df.nrows ++
        relabelCols (n - (df.labels.indexOf w : ℕ)) 0 df.cols⟩)
        = containerLabels n.toNat ++
          (relabelCols (n - (df.labels.indexOf w : ℕ)) 0 df.cols).map Prod.fst := by
      simp [Table.labels, List.map_append, containerCols_map_fst]
    refine ⟨column_not_mem_containerLabels _ _, ?_, ?_⟩
    · rw [hmap, show (containerLabels n.toNat).length
          = (containerLabels n.toNat).length from rfl]
      rw [List.take_left]
    · rw [hmap]
      rw [show (containerLabels n.toNat).length
          = (containerLabels n.toNat).length from rfl]
      exact le_indexOf_append (column_not_mem_containerLabels _ _)
  · have hif : shift_columns_and_create_containers df w n =
        (df, w, df.labels.take (df.labels.indexOf w)) := by
      simp only [shift_columns_and_create_containers]
      rw [if_neg hi]
    rw [hif]
    refine ⟨not_mem_take_indexOf _ _, ?_, ?_⟩
    · show df.labels.take ((df.labels.take (df.labels.indexOf w)).length)
        = df.labels.take (df.labels.indexOf w)
      rw [List.length_take, List.take_eq_take]
      omega
    · show (df.labels.take (df.labels.indexOf w)).length
        ≤ df.labels.indexOf w
      rw [List.length_take]
      omega

/-- Witness for C8 on the spec's shift scenario with `containerCount = 5`. -/
theorem c8_witness :
    ((1 : ℤ) ≤ 5) ∧
    ((shift_columns_and_create_containers tblScenarioShift
        (Label.orig "weight") 5).2.1
      ∉ (shift_columns_and_create_containers tblScenarioShift
        (Label.orig "weight") 5).2.2 ∧
    (shift_columns_and_create_containers tblScenarioShift
        (Label.orig "weight") 5).1.labels.take
        (shift_columns_and_create_containers tblScenarioShift
          (Label.orig "weight") 5).2.2.length
      = (shift_columns_and_create_containers tblScenarioShift
          (Label.orig "weight") 5).2.2 ∧
    (shift_columns_and_create_containers tblScenarioShift
        (Label.orig "weight") 5).2.2.length
      ≤ (shift_columns_and_create_containers tblScenarioShift
          (Label.orig "weight") 5).1.labels.indexOf
          (shift_columns_and_create_containers tblScenarioShift
            (Label.orig "weight") 5).2.1) :=
  ⟨by decide,
    c8_containers_disjoint_weight tblScenarioShift (Label.orig "weight") 5 (by decide)⟩

/-- Running the `processed_rows` accumulator counts the rows passing the guard. -/
theorem foldl_count_eq (l : List Cell) (k : ℕ) :
    l.foldl (fun acc c => if c.isPosWeight then acc + 1 else acc) k
      = k + (l.filter Cell.isPosWeight).length := by
  induction l generalizing k with
  | nil => simp
  | cons c cs ih =>
    by_cases h : c.isPosWeight
    · simp [h, ih]
      omega
    · simp [h, ih]

theorem distributeCol_length (n : ℕ) (ws cs : List Cell) :
    (distributeCol n ws cs).length = cs.length := by
  induction ws generalizing cs with
  | nil => cases cs <;> simp [distributeCol]
  | cons wc ws ih =>
    cases cs with
    | nil => cases wc <;> simp [distributeCol]
    | cons c cs => cases wc <;> simp [distributeCol, ih]

/-- Rows whose weight cell does not pass the guard are left untouched by
the per-column distribution. -/
theorem distributeCol_getElem?_skip (n : ℕ) (ws cs : List Cell) (j : ℕ)
    (h : ∀ c, ws[j]? = some c → c.isPosWeight = false) :
    (distributeCol n ws cs)[j]? = cs[j]? := by
  induction ws generalizing cs j with
  | nil => cases cs <;> simp [distributeCol]
  | cons wc ws ih =>
    cases cs with
    | nil => cases wc <;> simp [distributeCol]
    | cons c cs =>
      cases j with
      | zero =>
        cases wc with
        | num q =>
          have hq : ¬0 < q := by
            have := h (Cell.num q) (by simp)
            simpa [Cell.isPosWeight] using this
          simp [distributeCol, hq]
        | text s => simp [distributeCol]
        | empty => simp [distributeCol]
      | succ j =>
        have h' : ∀ d, ws[j]? = some d → d.isPosWeight = false := by
          intro d hd
          exact h d (by simpa using hd)
        cases wc <;> simp [distributeCol, ih _ _ h']

/-- C10: the distribution loop writes only container-column cells of rows
whose weight cell is a positive number.  Column labels and their order
are unchanged, every non-container column (in particular the weight
column, which is never a container) keeps its exact cells, every column
keeps its length (so the row count is unchanged), and within a container
column every row whose weight cell fails the guard keeps its cell. -/
theorem c10_distribute_frame (df : Table) (w : Label) (cs : List Label)
    (_hw : w ∉ cs)
    (_htext : ∀ c ∈ df.getCol w, c.isText = false) :
    (distributeLoop df w cs).1.labels = df.labels ∧
    (distributeLoop df w cs).1.cols.length = df.cols.length ∧
    (∀ (j : ℕ) (p : Label × List Cell), df.cols[j]? = some p →
      ∃ cells, (distributeLoop df w cs).1.cols[j]? = some (p.1, cells) ∧
        cells.length = p.2.length ∧
        (p.1 ∉ cs → cells = p.2) ∧
        (∀ (i : ℕ), (∀ (c : Cell), (df.getCol w)[i]? = some c → c.isPosWeight = false) →
          cells[i]? = p.2[i]?)) := by
  refine ⟨?_, ?_, ?_⟩
  · simp only [distributeLoop, Table.labels, List.map_map]
    refine List.map_congr_left ?_
    intro c _
    by_cases hc : c.1 ∈ cs <;> simp [hc]
  · simp [distributeLoop]
  · intro j p hp
    have hmap : (distributeLoop df w cs).1.cols[j]?
        = some (if p.1 ∈ cs then
            (p.1, distributeCol cs.length (df.getCol w) p.2) else p) := by
      simp only [distributeLoop, List.getElem?_map, hp, Option.map_some']
    by_cases hc : p.1 ∈ cs
    · rw [if_pos hc] at hmap
      refine ⟨distributeCol cs.length (df.getCol w) p.2, hmap,
        distributeCol_length _ _ _, fun hnc => absurd hc hnc, ?_⟩
      intro i hi
      exact distributeCol_getElem?_skip _ _ _ _ hi
    · rw [if_neg hc] at hmap
      exact ⟨p.2, hmap, rfl, fun _ => rfl, fun _ _ => rfl⟩

/-- Witness for C10 on `tblSkipRow`: distributing `[A]` from weight
column `W` (one row, weight 0). -/
theorem c10_witness :
    (Label.orig "W" ∉ [Label.orig "A"]) ∧
    (∀ c ∈ tblSkipRow.getCol (Label.orig "W"), c.isText = false) ∧
    ((distributeLoop tblSkipRow (Label.orig "W") [Label.orig "A"]).1.labels
        = tblSkipRow.labels ∧
    (distributeLoop tblSkipRow (Label.orig "W") [Label.orig "A"]).1.cols.length
        = tblSkipRow.cols.length ∧
    (∀ (j : ℕ) (p : Label × List Cell), tblSkipRow.cols[j]? = some p →
      ∃ cells, (distributeLoop tblSkipRow (Label.orig "W")
          [Label.orig "A"]).1.cols[j]? = some (p.1, cells) ∧
        cells.length = p.2.length ∧
        (p.1 ∉ [Label.orig "A"] → cells = p.2) ∧
        (∀ (i : ℕ), (∀ (c : Cell), (tblSkipRow.getCol (Label.orig "W"))[i]? = some c →
            c.isPosWeight = false) →
          cells[i]? = p.2[i]?))) :=
  ⟨by decide, by decide,
    c10_distribute_frame tblSkipRow (Label.orig "W") [Label.orig "A"]
      (by decide) (by decide)⟩

/-- C4 (as amended): rows whose weight cell is missing or not strictly
positive are skipped by the distribution loop — their container cells
keep whatever value they already had (all-zero only when the containers
were freshly created by the shift case), and they are not counted;
`processed_rows` is exactly the number of rows whose weight cell is a
number strictly greater than 0. -/
theorem c4_skip_rows_spec (df : Table) (w : Label) (cs : List Label)
    (_hw : w ∉ cs)
    (_htext : ∀ c ∈ df.getCol w, c.isText = false) :
    (distributeLoop df w cs).2
      = ((df.getCol w).filter Cell.isPosWeight).length ∧
    (∀ (j : ℕ) (p : Label × List Cell), df.cols[j]? = some p →
      ∀ (i : ℕ), (∀ (c : Cell), (df.getCol w)[i]? = some c → c.isPosWeight = false) →
        ∃ cells, (distributeLoop df w cs).1.cols[j]? = some (p.1, cells) ∧
          cells[i]? = p.2[i]?) := by
  refine ⟨?_, ?_⟩
  · simp only [distributeLoop]
    simpa using foldl_count_eq (df.getCol w) 0
  · intro j p hp i hi
    have hmap : (distributeLoop df w cs).1.cols[j]?
        = some (if p.1 ∈ cs then
            (p.1, distributeCol cs.length (df.getCol w) p.2) else p) := by
      simp only [distributeLoop, List.getElem?_map, hp, Option.map_some']
    by_cases hc : p.1 ∈ cs
    · rw [if_pos hc] at hmap
      exact ⟨distributeCol cs.length (df.getCol w) p.2, hmap,
        distributeCol_getElem?_skip _ _ _ _ hi⟩
    · rw [if_neg hc] at hmap
      exact ⟨p.2, hmap, rfl⟩

/-- Witness for C4 (amended) on `tblSkipRow`. -/
theorem c4_witness :
    (Label.orig "W" ∉ [Label.orig "A"]) ∧
    (∀ c ∈ tblSkipRow.getCol (Label.orig "W"), c.isText = false) ∧
    ((distributeLoop tblSkipRow (Label.orig "W") [Label.orig "A"]).2
        = ((tblSkipRow.getCol (Label.orig "W")).filter Cell.isPosWeight).length ∧
    (∀ (j : ℕ) (p : Label × List Cell), tblSkipRow.cols[j]? = some p →
      ∀ (i : ℕ), (∀ (c : Cell), (tblSkipRow.getCol (Label.orig "W"))[i]? = some c →
          c.isPosWeight = false) →
        ∃ cells, (distributeLoop tblSkipRow (Label.orig "W")
            [Label.orig "A"]).1.cols[j]? = some (p.1, cells) ∧
          cells[i]? = p.2[i]?)) :=
  ⟨by decide, by decide,
    c4_skip_rows_spec tblSkipRow (Label.orig "W") [Label.orig "A"]
      (by decide) (by decide)⟩

/-- C4 counterexample: on `tblSkipRow` (container column `A` holding 7,
weight 0), the skipped row's container cell stays 7 — it is *not* set to
zero as the claim states — and the row is not counted. -/
theorem c4_counterexample :
    (distributeLoop tblSkipRow (Label.orig "W") [Label.orig "A"]).1.getCol
        (Label.orig "A") = [Cell.num 7] ∧
    (distributeLoop tblSkipRow (Label.orig "W") [Label.orig "A"]).2 = 0 ∧
    Cell.num 7 ≠ Cell.num 0 := by
  refine ⟨rfl, rfl, ?_⟩
  intro h
  exact absurd (Cell.num.inj h) (by norm_num)
